import Mathlib

/-!
Verification development for the audio-viz repository (src/filter.rs and
src/waveform.rs). The f32 and f64 arithmetic of the source is modelled
exactly: by the rationals where the code performs only field arithmetic and
comparisons, and by the reals where square roots, powers of two and cube
roots occur. The two source files disagree on the field names of
WaveformBin (waveform.rs declares ratio and peak, filter.rs constructs peak
and energy); each file is embedded as written, the bin type built by
filter.rs lives in the FilterRs namespace.
-/

namespace AudioViz

/-- WaveformVal (src/waveform.rs): an 8-bit fixed point value. The u8 code is
kept as a natural number; from_f32 only ever produces codes in 0..=255. -/
structure WaveformVal where
  val : ℕ
deriving DecidableEq

/-- MAX_VAL of WaveformVal. -/
def WaveformVal.MAX_VAL : ℕ := 255

/-- WaveformVal::from_f32: mapped = min (val * 256) 255, then the truncating
cast `as u8`, which is the floor for the nonnegative values the code allows
(saturating at 0 below zero, as the release build cast does). -/
def WaveformVal.from_f32 (v : ℚ) : WaveformVal :=
  ⟨(⌊min (v * 256) 255⌋).toNat⟩

/-- WaveformVal::to_f32: code / 255. -/
def WaveformVal.to_f32 (v : WaveformVal) : ℚ :=
  (v.val : ℚ) / 255

/-- FilteredWaveformVal (src/waveform.rs): one value per band. -/
structure FilteredWaveformVal where
  all : WaveformVal
  low : WaveformVal
  mid : WaveformVal
  high : WaveformVal
deriving DecidableEq

/-- FilteredWaveformVal::spectral_rgb: red from low, green from mid, blue from
high, each normalized by the maximum of the four band values; black when the
denominator is zero. -/
def FilteredWaveformVal.spectral_rgb (f : FilteredWaveformVal) : ℚ × ℚ × ℚ :=
  let denom := max (max (max f.all.to_f32 f.low.to_f32) f.mid.to_f32) f.high.to_f32
  if denom = 0 then (0, 0, 0)
  else (f.low.to_f32 / denom, f.mid.to_f32 / denom, f.high.to_f32 / denom)

/-- FilteredWaveformVal::spectral_rgb_color: the rgb triple of spectral_rgb. -/
def FilteredWaveformVal.spectral_rgb_color (f : FilteredWaveformVal) : ℚ × ℚ × ℚ :=
  f.spectral_rgb

/-- WaveformBin as declared in src/waveform.rs: a log-scaled ratio and a peak. -/
structure WaveformBin where
  ratio : WaveformVal
  peak : WaveformVal
deriving DecidableEq

/-- FilteredWaveformBin (src/waveform.rs): one WaveformBin per band. -/
structure FilteredWaveformBin where
  all : WaveformBin
  low : WaveformBin
  mid : WaveformBin
  high : WaveformBin
deriving DecidableEq

/-- FilteredWaveformBin::ratio. -/
def FilteredWaveformBin.ratio (b : FilteredWaveformBin) : FilteredWaveformVal :=
  ⟨b.all.ratio, b.low.ratio, b.mid.ratio, b.high.ratio⟩

/-- FilteredWaveformBin::peak. -/
def FilteredWaveformBin.peak (b : FilteredWaveformBin) : FilteredWaveformVal :=
  ⟨b.all.peak, b.low.peak, b.mid.peak, b.high.peak⟩

/-- A bin whose four bands all carry the same value in both fields, as built
by the spectral flatness test of src/waveform.rs. -/
def FilteredWaveformBin.uniform (v : WaveformVal) : FilteredWaveformBin :=
  ⟨⟨v, v⟩, ⟨v, v⟩, ⟨v, v⟩, ⟨v, v⟩⟩

noncomputable section

/-- WaveformVal::from_f32 on real inputs: the same function as from_f32, used
where the streaming filter quantizes values that carry square roots. -/
def WaveformVal.fromF32Real (v : ℝ) : WaveformVal :=
  ⟨(⌊min (v * 256) 255⌋).toNat⟩

open Classical in
/-- FilteredWaveformBin::spectral_flatness (src/waveform.rs): geometric over
arithmetic mean of the three un-log-scaled band ratios, 1 for the degenerate
all-zero mean. exp2 is the real power of 2 and powf the real power. -/
def FilteredWaveformBin.spectral_flatness (b : FilteredWaveformBin) : ℝ :=
  let low := (2 : ℝ) ^ ((b.ratio.low.to_f32 : ℝ)) - 1
  let mid := (2 : ℝ) ^ ((b.ratio.mid.to_f32 : ℝ)) - 1
  let high := (2 : ℝ) ^ ((b.ratio.high.to_f32 : ℝ)) - 1
  let arithmetic_mean := (low + mid + high) / 3
  if arithmetic_mean = 0 then 1
  else (low * mid * high) ^ ((1 : ℝ) / 3) / arithmetic_mean

end

namespace FilterRs

/-- The per-band bin built by src/filter.rs WaveformBinAccumulator::finish,
whose fields there are named peak and energy. -/
structure WaveformBin where
  peak : WaveformVal
  energy : WaveformVal
deriving DecidableEq

/-- The four-band bin emitted by the streaming filter of src/filter.rs. -/
structure FilteredWaveformBin where
  all : WaveformBin
  low : WaveformBin
  mid : WaveformBin
  high : WaveformBin
deriving DecidableEq

end FilterRs

noncomputable section

/-- Normalized biquad coefficients (the external biquad crate Coefficients).
Their numeric values are abstracted: the repository computes them from the
crossover frequencies through the crate, outside this repository. -/
structure Coefficients where
  a1 : ℝ
  a2 : ℝ
  b0 : ℝ
  b1 : ℝ
  b2 : ℝ

/-- DirectForm2Transposed: coefficients plus the two delay registers. -/
structure Biquad where
  coeffs : Coefficients
  s1 : ℝ
  s2 : ℝ

/-- DirectForm2Transposed::new: cleared delay registers. -/
def Biquad.new (c : Coefficients) : Biquad :=
  ⟨c, 0, 0⟩

/-- DirectForm2Transposed::run: the transposed direct form II recurrence. -/
def Biquad.run (f : Biquad) (input : ℝ) : Biquad × ℝ :=
  let out := f.coeffs.b0 * input + f.s1
  ⟨⟨f.coeffs, f.coeffs.b1 * input - f.coeffs.a1 * out + f.s2,
    f.coeffs.b2 * input - f.coeffs.a2 * out⟩, out⟩

/-- Two cascaded biquad stages: iter_mut().fold over one two-stage array of
ThreeBandFilterBank. -/
def Biquad.runCascade (p : Biquad × Biquad) (x : ℝ) : (Biquad × Biquad) × ℝ :=
  let r1 := p.1.run x
  let r2 := p.2.run r1.2
  ⟨⟨r1.1, r2.1⟩, r2.2⟩

/-- FilteredSample (src/filter.rs): the four band signals of one sample. -/
structure FilteredSample where
  all : ℝ
  low : ℝ
  mid : ℝ
  high : ℝ

/-- ThreeBandFilterBank (src/filter.rs): three two-stage cascades. -/
structure ThreeBandFilterBank where
  low_lp : Biquad × Biquad
  mid_bp : Biquad × Biquad
  high_hp : Biquad × Biquad

/-- ThreeBandFilterBank::new: the stage arrays [low_lp, low_lp],
[low_hp, high_lp] and [high_hp, high_hp] of the source, each stage starting
from cleared delay registers. The coefficient records stand in for the
Coefficients::from_params results of the biquad crate. -/
def ThreeBandFilterBank.new (low_lp low_hp high_lp high_hp : Coefficients) :
    ThreeBandFilterBank :=
  ⟨⟨Biquad.new low_lp, Biquad.new low_lp⟩,
   ⟨Biquad.new low_hp, Biquad.new high_lp⟩,
   ⟨Biquad.new high_hp, Biquad.new high_hp⟩⟩

/-- ThreeBandFilterBank::shape_input_signal: the documented no-op hook. -/
def ThreeBandFilterBank.shape_input_signal (sample : ℝ) : ℝ :=
  sample

/-- ThreeBandFilterBank::run: one sample through the three cascades. -/
def ThreeBandFilterBank.run (bank : ThreeBandFilterBank) (sample : ℝ) :
    ThreeBandFilterBank × FilteredSample :=
  let all := ThreeBandFilterBank.shape_input_signal sample
  let rl := Biquad.runCascade bank.low_lp all
  let rm := Biquad.runCascade bank.mid_bp all
  let rh := Biquad.runCascade bank.high_hp all
  ⟨⟨rl.1, rm.1, rh.1⟩, ⟨all, rl.2, rm.2, rh.2⟩⟩

/-- WaveformBinAccumulator (src/filter.rs): running peak and sum of squares.
The source keeps rms_sum in f64 while samples are f32; both are modelled by
exact reals. -/
structure WaveformBinAccumulator where
  peak : ℝ
  rms_sum : ℝ

instance : Inhabited WaveformBinAccumulator :=
  ⟨⟨0, 0⟩⟩

/-- WaveformBinAccumulator::add_sample. -/
def WaveformBinAccumulator.add_sample (a : WaveformBinAccumulator) (sample : ℝ) :
    WaveformBinAccumulator :=
  ⟨max a.peak |sample|, a.rms_sum + sample * sample⟩

/-- WaveformBinAccumulator::finish: energy is the RMS scaled by the square
root of two and clamped above at 1, then quantized; SQRT_2 is the real square
root of two. -/
def WaveformBinAccumulator.finish (a : WaveformBinAccumulator) (rms_div : ℝ) :
    FilterRs.WaveformBin :=
  ⟨WaveformVal.fromF32Real a.peak,
   WaveformVal.fromF32Real (min (Real.sqrt (a.rms_sum / rms_div) * Real.sqrt 2) 1)⟩

/-- FilteredWaveformBinAccumulator (src/filter.rs): a sample counter and one
accumulator per band. -/
structure FilteredWaveformBinAccumulator where
  sample_count : ℕ
  all : WaveformBinAccumulator
  low : WaveformBinAccumulator
  mid : WaveformBinAccumulator
  high : WaveformBinAccumulator

instance : Inhabited FilteredWaveformBinAccumulator :=
  ⟨⟨0, default, default, default, default⟩⟩

/-- FilteredWaveformBinAccumulator::add_sample: runs the filter bank once and
feeds the four band values; returns the updated accumulator and bank. -/
def FilteredWaveformBinAccumulator.add_sample (acc : FilteredWaveformBinAccumulator)
    (filter_bank : ThreeBandFilterBank) (sample : ℝ) :
    FilteredWaveformBinAccumulator × ThreeBandFilterBank :=
  let r := filter_bank.run sample
  ⟨⟨acc.sample_count + 1,
    acc.all.add_sample r.2.all,
    acc.low.add_sample r.2.low,
    acc.mid.add_sample r.2.mid,
    acc.high.add_sample r.2.high⟩, r.1⟩

/-- FilteredWaveformBinAccumulator::finish: None when no samples were fed,
otherwise the four bands finished with rms_div = sample_count. -/
def FilteredWaveformBinAccumulator.finish (acc : FilteredWaveformBinAccumulator) :
    Option FilterRs.FilteredWaveformBin :=
  if acc.sample_count = 0 then none
  else
    some ⟨acc.all.finish (acc.sample_count : ℝ), acc.low.finish (acc.sample_count : ℝ),
          acc.mid.finish (acc.sample_count : ℝ), acc.high.finish (acc.sample_count : ℝ)⟩

/-- Folding a list of samples into an accumulator and bank, one
FilteredWaveformBinAccumulator::add_sample call per sample: the samples a
flushed bin aggregates. -/
def FilteredWaveformBinAccumulator.feed (acc : FilteredWaveformBinAccumulator)
    (bank : ThreeBandFilterBank) :
    List ℝ → FilteredWaveformBinAccumulator × ThreeBandFilterBank
  | [] => ⟨acc, bank⟩
  | x :: xs =>
      let r := acc.add_sample bank x
      r.1.feed r.2 xs

/-- MIN_SAMPLES_PER_BIN (src/filter.rs). -/
def MIN_SAMPLES_PER_BIN : ℚ :=
  64

/-- WaveformFilter (src/filter.rs). pending_samples_count and samples_per_bin
are f32 in the source; both are modelled exactly by rationals. -/
structure WaveformFilter where
  pending_samples_count : ℚ
  samples_per_bin : ℚ
  filter_bank : ThreeBandFilterBank
  filtered_accumulator : FilteredWaveformBinAccumulator

/-- WaveformFilter::new. samples_per_bin is computed from the configuration
exactly as in the source; the filter bank is passed already built, since the
source builds it from the crossover frequencies through the biquad crate. -/
def WaveformFilter.new (sample_rate_hz bins_per_sec : ℚ) (bank : ThreeBandFilterBank) :
    WaveformFilter :=
  ⟨0, max (sample_rate_hz / bins_per_sec) MIN_SAMPLES_PER_BIN, bank, default⟩

/-- WaveformFilter::finish_bin: std::mem::take leaves a default accumulator
behind and finishes the taken one. -/
def WaveformFilter.finish_bin (w : WaveformFilter) :
    WaveformFilter × Option FilterRs.FilteredWaveformBin :=
  ⟨{ w with filtered_accumulator := default }, w.filtered_accumulator.finish⟩

/-- WaveformFilter::add_sample: when the pre-increment pending count has
reached samples_per_bin, subtract samples_per_bin and flush; then feed the
sample and increment the pending count. The source computes the optional
flushed bin first and shares the feeding tail; the two branches here spell
that tail out. -/
def WaveformFilter.add_sample (w : WaveformFilter) (sample : ℝ) :
    WaveformFilter × Option FilterRs.FilteredWaveformBin :=
  if w.samples_per_bin ≤ w.pending_samples_count then
    let t := WaveformFilter.finish_bin
      { w with pending_samples_count := w.pending_samples_count - w.samples_per_bin }
    let r := t.1.filtered_accumulator.add_sample t.1.filter_bank sample
    ⟨{ t.1 with
        filtered_accumulator := r.1, filter_bank := r.2,
        pending_samples_count := t.1.pending_samples_count + 1 }, t.2⟩
  else
    let r := w.filtered_accumulator.add_sample w.filter_bank sample
    ⟨{ w with
        filtered_accumulator := r.1, filter_bank := r.2,
        pending_samples_count := w.pending_samples_count + 1 }, none⟩

/-- WaveformFilter::finish: flushes the final, possibly incomplete bin. -/
def WaveformFilter.finish (w : WaveformFilter) : Option FilterRs.FilteredWaveformBin :=
  w.finish_bin.2

/-- Pushing a list of samples through the filter, one add_sample call per
sample, collecting each call's optional completed bin in order. -/
def WaveformFilter.processStream (w : WaveformFilter) :
    List ℝ → WaveformFilter × List (Option FilterRs.FilteredWaveformBin)
  | [] => ⟨w, []⟩
  | x :: xs =>
      let r := w.add_sample x
      let t := r.1.processStream xs
      ⟨t.1, r.2 :: t.2⟩

/-- A concrete filter bank (all coefficients zero) for evaluating the model
at concrete inputs; the bin boundary bookkeeping never depends on it. -/
def bank0 : ThreeBandFilterBank :=
  ThreeBandFilterBank.new ⟨0, 0, 0, 0, 0⟩ ⟨0, 0, 0, 0, 0⟩ ⟨0, 0, 0, 0, 0⟩ ⟨0, 0, 0, 0, 0⟩

end

/-- The bin a silent stream produces: code 0 everywhere. -/
def zeroFilteredWaveformBin : FilterRs.FilteredWaveformBin :=
  ⟨⟨⟨0⟩, ⟨0⟩⟩, ⟨⟨0⟩, ⟨0⟩⟩, ⟨⟨0⟩, ⟨0⟩⟩, ⟨⟨0⟩, ⟨0⟩⟩⟩

/-- A biquad with cleared delay registers. -/
def Biquad.ZeroState (f : Biquad) : Prop :=
  f.s1 = 0 ∧ f.s2 = 0

/-- All six biquad stages of a bank have cleared delay registers. -/
def ThreeBandFilterBank.ZeroState (b : ThreeBandFilterBank) : Prop :=
  b.low_lp.1.ZeroState ∧ b.low_lp.2.ZeroState ∧ b.mid_bp.1.ZeroState ∧
  b.mid_bp.2.ZeroState ∧ b.high_hp.1.ZeroState ∧ b.high_hp.2.ZeroState

/-- All four band accumulators hold peak 0 and sum of squares 0. -/
def FilteredWaveformBinAccumulator.ZeroBands (acc : FilteredWaveformBinAccumulator) : Prop :=
  acc.all = ⟨0, 0⟩ ∧ acc.low = ⟨0, 0⟩ ∧ acc.mid = ⟨0, 0⟩ ∧ acc.high = ⟨0, 0⟩

/-- The counting skeleton of a WaveformFilter state: the pending count, the
bin size and the accumulator sample counter, which evolve independently of
the sample values. -/
structure CountState where
  pending : ℚ
  spb : ℚ
  count : ℕ
deriving DecidableEq

/-- One WaveformFilter::add_sample call restricted to the counting skeleton.
The emitted number is the sample count underlying the bin flushed by that
call (none when the call flushes nothing or the drained accumulator was
empty, exactly as FilteredWaveformBinAccumulator::finish returns None). -/
def countStep (s : CountState) : CountState × Option ℕ :=
  if s.spb ≤ s.pending then
    ⟨⟨s.pending - s.spb + 1, s.spb, 1⟩, if s.count = 0 then none else some s.count⟩
  else
    ⟨⟨s.pending + 1, s.spb, s.count + 1⟩, none⟩

/-- countStep iterated once per sample of a stream of the given length. -/
def countRun (s : CountState) : ℕ → CountState × List (Option ℕ)
  | 0 => ⟨s, []⟩
  | n + 1 =>
      let r := countStep s
      let t := countRun r.1 n
      ⟨t.1, r.2 :: t.2⟩

/-- The counting skeleton of a WaveformFilter state. -/
def WaveformFilter.countOf (w : WaveformFilter) : CountState :=
  ⟨w.pending_samples_count, w.samples_per_bin, w.filtered_accumulator.sample_count⟩

/-! ## Helper lemmas about the counting skeleton -/

lemma default_filteredAcc :
    (default : FilteredWaveformBinAccumulator) = ⟨0, ⟨0, 0⟩, ⟨0, 0⟩, ⟨0, 0⟩, ⟨0, 0⟩⟩ :=
  rfl

lemma countStep_spb (s : CountState) : (countStep s).1.spb = s.spb := by
  unfold countStep
  split <;> rfl

lemma countRun_zero (s : CountState) : countRun s 0 = ⟨s, []⟩ :=
  rfl

lemma countRun_cons (s : CountState) (n : ℕ) :
    countRun s (n + 1) =
      ⟨(countRun (countStep s).1 n).1, (countStep s).2 :: (countRun (countStep s).1 n).2⟩ :=
  rfl

/-- countRun with the last step peeled off instead of the first. -/
lemma countRun_succ (s : CountState) (n : ℕ) :
    countRun s (n + 1) =
      ⟨(countStep (countRun s n).1).1,
       (countRun s n).2 ++ [(countStep (countRun s n).1).2]⟩ := by
  induction n generalizing s with
  | zero => simp [countRun]
  | succ n ih =>
      rw [countRun_cons s (n + 1), ih (countStep s).1, countRun_cons s n]
      simp

lemma countRun_spb (s : CountState) (n : ℕ) : (countRun s n).1.spb = s.spb := by
  induction n generalizing s with
  | zero => rfl
  | succ n ih => rw [countRun_cons, ih, countStep_spb]

/-- The joint invariant of the counting skeleton started on a fresh filter
state: the pending count measures samples minus flushed bins, the emitted
sample counts and the residual counter partition the stream, the counter and
the pending count are positive once a sample was fed, and the pending count
stays below spb + 1. -/
lemma countRun_inv (S : ℚ) (hS : 1 ≤ S) (n : ℕ) :
    (countRun ⟨0, S, 0⟩ n).1.pending
        = (n : ℚ) - S * ((countRun ⟨0, S, 0⟩ n).2.countP Option.isSome : ℕ) ∧
    ((countRun ⟨0, S, 0⟩ n).2.filterMap id).sum + (countRun ⟨0, S, 0⟩ n).1.count = n ∧
    (n = 0 → (countRun ⟨0, S, 0⟩ n).1.pending = 0 ∧ (countRun ⟨0, S, 0⟩ n).1.count = 0) ∧
    (1 ≤ n → 1 ≤ (countRun ⟨0, S, 0⟩ n).1.pending ∧ 1 ≤ (countRun ⟨0, S, 0⟩ n).1.count) ∧
    (countRun ⟨0, S, 0⟩ n).1.pending < S + 1 := by
  induction n with
  | zero =>
      refine ⟨by simp [countRun], by simp [countRun], fun _ => ⟨rfl, rfl⟩,
        fun h => absurd h (by simp), ?_⟩
      show (0 : ℚ) < S + 1
      linarith
  | succ n ih =>
      obtain ⟨h2, h3, h4, h5, h6⟩ := ih
      rw [countRun_succ]
      set st := (countRun ⟨0, S, 0⟩ n).1 with hst
      set outs := (countRun ⟨0, S, 0⟩ n).2 with houts
      have hspb : st.spb = S := countRun_spb ⟨0, S, 0⟩ n
      by_cases hf : st.spb ≤ st.pending
      · -- the step flushes
        have hfS : S ≤ st.pending := hspb ▸ hf
        have hn : 1 ≤ n := by
          rcases Nat.eq_zero_or_pos n with h0 | h1
          · exfalso
            have := (h4 h0).1
            rw [this] at hfS
            linarith
          · exact h1
        have hcount : st.count ≠ 0 := Nat.one_le_iff_ne_zero.mp (h5 hn).2
        have hstep : countStep st = ⟨⟨st.pending - st.spb + 1, st.spb, 1⟩, some st.count⟩ := by
          unfold countStep
          rw [if_pos hf, if_neg hcount]
        rw [hstep]
        have hF : (outs ++ [some st.count]).countP Option.isSome
            = outs.countP Option.isSome + 1 := by
          rw [List.countP_append]
          simp
        have hsum : ((outs ++ [some st.count]).filterMap id).sum
            = (outs.filterMap id).sum + st.count := by
          rw [List.filterMap_append]
          simp
        refine ⟨?_, ?_, by simp, fun _ => ⟨?_, le_refl 1⟩, ?_⟩
        · show st.pending - st.spb + 1
              = ((n + 1 : ℕ) : ℚ) - S * (((outs ++ [some st.count]).countP Option.isSome : ℕ) : ℚ)
          rw [hF, hspb, h2]
          push_cast
          ring
        · show ((outs ++ [some st.count]).filterMap id).sum + 1 = n + 1
          rw [hsum]
          omega
        · show (1 : ℚ) ≤ st.pending - st.spb + 1
          rw [hspb]
          linarith
        · show st.pending - st.spb + 1 < S + 1
          rw [hspb]
          linarith
      · -- no flush
        have hfS : st.pending < S := by
          rw [hspb] at hf
          exact lt_of_not_le hf
        have hstep : countStep st = ⟨⟨st.pending + 1, st.spb, st.count + 1⟩, none⟩ := by
          unfold countStep
          rw [if_neg hf]
        rw [hstep]
        have hF : (outs ++ [(none : Option ℕ)]).countP Option.isSome
            = outs.countP Option.isSome := by
          rw [List.countP_append]
          simp
        have hsum : ((outs ++ [(none : Option ℕ)]).filterMap id).sum
            = (outs.filterMap id).sum := by
          rw [List.filterMap_append]
          simp
        have hp0 : 0 ≤ st.pending := by
          rcases Nat.eq_zero_or_pos n with h0 | h1
          · rw [(h4 h0).1]
          · linarith [(h5 h1).1]
        refine ⟨?_, ?_, by simp, fun _ => ⟨?_, ?_⟩, ?_⟩
        · show st.pending + 1
              = ((n + 1 : ℕ) : ℚ) - S * (((outs ++ [(none : Option ℕ)]).countP Option.isSome : ℕ) : ℚ)
          rw [hF, h2]
          push_cast
          ring
        · show ((outs ++ [(none : Option ℕ)]).filterMap id).sum + (st.count + 1) = n + 1
          rw [hsum]
          omega
        · show (1 : ℚ) ≤ st.pending + 1
          linarith
        · show 1 ≤ st.count + 1
          omega
        · show st.pending + 1 < S + 1
          linarith

/-- The number of bins the skeleton flushes over the first n samples: the
floor of (n - 1) / spb, for a nonempty stream. -/
lemma countRun_countP (S : ℚ) (hS : 1 ≤ S) (n : ℕ) (hn : 1 ≤ n) :
    (((countRun ⟨0, S, 0⟩ n).2.countP Option.isSome : ℕ) : ℤ) = ⌊((n : ℚ) - 1) / S⌋ := by
  obtain ⟨h2, _, _, h5, h6⟩ := countRun_inv S hS n
  set F : ℕ := (countRun ⟨0, S, 0⟩ n).2.countP Option.isSome with hF
  have hS0 : (0 : ℚ) < S := by linarith
  have hp1 : 1 ≤ (n : ℚ) - S * F := h2 ▸ (h5 hn).1
  have hp2 : (n : ℚ) - S * F < S + 1 := h2 ▸ h6
  symm
  rw [Int.floor_eq_iff]
  constructor
  · rw [le_div_iff₀ hS0]
    push_cast
    linarith
  · rw [div_lt_iff₀ hS0]
    push_cast
    linarith

lemma countRun_sum (S : ℚ) (hS : 1 ≤ S) (n : ℕ) :
    ((countRun ⟨0, S, 0⟩ n).2.filterMap id).sum + (countRun ⟨0, S, 0⟩ n).1.count = n :=
  (countRun_inv S hS n).2.1

lemma countRun_count_pos (S : ℚ) (hS : 1 ≤ S) (n : ℕ) (hn : 1 ≤ n) :
    1 ≤ (countRun ⟨0, S, 0⟩ n).1.count :=
  ((countRun_inv S hS n).2.2.2.1 hn).2

/-! ## Simulation: the real filter follows the counting skeleton -/

lemma filteredAcc_finish_isSome (acc : FilteredWaveformBinAccumulator) :
    acc.finish.isSome = true ↔ acc.sample_count ≠ 0 := by
  unfold FilteredWaveformBinAccumulator.finish
  by_cases h : acc.sample_count = 0 <;> simp [h]

/-- One add_sample call agrees with one countStep: same next skeleton state,
a bin is emitted exactly when the skeleton emits, and the skeleton emission
is the sample count underlying the emitted bin. -/
lemma countOf_add_sample (w : WaveformFilter) (x : ℝ) :
    (w.add_sample x).1.countOf = (countStep w.countOf).1 ∧
    (w.add_sample x).2.isSome = (countStep w.countOf).2.isSome ∧
    (countStep w.countOf).2
      = (w.add_sample x).2.map (fun _ => w.filtered_accumulator.sample_count) := by
  unfold WaveformFilter.add_sample countStep WaveformFilter.countOf WaveformFilter.finish_bin
    FilteredWaveformBinAccumulator.add_sample FilteredWaveformBinAccumulator.finish
  by_cases hf : w.samples_per_bin ≤ w.pending_samples_count
  · by_cases hc : w.filtered_accumulator.sample_count = 0 <;>
      simp [hf, hc, default_filteredAcc]
  · simp [hf]

/-- Pushing a stream through the filter follows the counting skeleton: the
final skeleton state matches, and each call emits a bin exactly when the
skeleton does. -/
lemma countOf_processStream (w : WaveformFilter) (l : List ℝ) :
    (w.processStream l).1.countOf = (countRun w.countOf l.length).1 ∧
    (w.processStream l).2.map Option.isSome
      = (countRun w.countOf l.length).2.map Option.isSome := by
  induction l generalizing w with
  | nil => exact ⟨rfl, rfl⟩
  | cons x xs ih =>
      obtain ⟨h1, h2, _⟩ := countOf_add_sample w x
      obtain ⟨ih1, ih2⟩ := ih (w.add_sample x).1
      constructor
      · show ((w.add_sample x).1.processStream xs).1.countOf = _
        rw [ih1, h1]
        rfl
      · show (w.add_sample x).2.isSome
            :: ((w.add_sample x).1.processStream xs).2.map Option.isSome = _
        rw [ih2, h1, h2]
        rfl

lemma processStream_pending (w : WaveformFilter) (l : List ℝ) :
    (w.processStream l).1.pending_samples_count = (countRun w.countOf l.length).1.pending :=
  congrArg CountState.pending (countOf_processStream w l).1

lemma processStream_spb (w : WaveformFilter) (l : List ℝ) :
    (w.processStream l).1.samples_per_bin = w.samples_per_bin := by
  have h := congrArg CountState.spb (countOf_processStream w l).1
  rw [countRun_spb] at h
  exact h

lemma processStream_count (w : WaveformFilter) (l : List ℝ) :
    (w.processStream l).1.filtered_accumulator.sample_count
      = (countRun w.countOf l.length).1.count :=
  congrArg CountState.count (countOf_processStream w l).1

lemma processStream_countP (w : WaveformFilter) (l : List ℝ) :
    (w.processStream l).2.countP Option.isSome
      = (countRun w.countOf l.length).2.countP Option.isSome := by
  have h := (countOf_processStream w l).2
  have e : ∀ m : List (Option FilterRs.FilteredWaveformBin),
      m.countP Option.isSome = (m.map Option.isSome).countP (fun b => b) := by
    intro m
    rw [List.countP_map]
    rfl
  have e2 : ∀ m : List (Option ℕ),
      m.countP Option.isSome = (m.map Option.isSome).countP (fun b => b) := by
    intro m
    rw [List.countP_map]
    rfl
  rw [e, e2, h]

lemma processStream_all_none (w : WaveformFilter) (l : List ℝ)
    (h : ∀ o ∈ (countRun w.countOf l.length).2, o = none) :
    ∀ o ∈ (w.processStream l).2, o = none := by
  intro o ho
  have hm := (countOf_processStream w l).2
  have hmem : o.isSome ∈ (countRun w.countOf l.length).2.map Option.isSome := by
    rw [← hm]
    exact List.mem_map_of_mem Option.isSome ho
  rcases List.mem_map.mp hmem with ⟨o2, ho2, he⟩
  rw [h o2 ho2] at he
  cases o with
  | none => rfl
  | some b => simp at he

/-- The countOf skeleton of a freshly constructed filter. -/
lemma countOf_new (sample_rate_hz bins_per_sec : ℚ) (bank : ThreeBandFilterBank) :
    (WaveformFilter.new sample_rate_hz bins_per_sec bank).countOf
      = ⟨0, max (sample_rate_hz / bins_per_sec) MIN_SAMPLES_PER_BIN, 0⟩ :=
  rfl

lemma new_samples_per_bin (sample_rate_hz bins_per_sec : ℚ) (bank : ThreeBandFilterBank) :
    64 ≤ (WaveformFilter.new sample_rate_hz bins_per_sec bank).samples_per_bin :=
  le_max_right _ _

/-- What one flushing add_sample call does: the emitted bin is the finish of
the accumulator as it stood before the call, the residual pending count is
carried over (plus the one new sample), and the accumulator restarts with
exactly the triggering sample. -/
lemma add_sample_flush (w : WaveformFilter) (x : ℝ)
    (h : w.samples_per_bin ≤ w.pending_samples_count) :
    (w.add_sample x).2 = w.filtered_accumulator.finish ∧
    (w.add_sample x).1.pending_samples_count
      = w.pending_samples_count - w.samples_per_bin + 1 ∧
    (w.add_sample x).1.filtered_accumulator.sample_count = 1 := by
  unfold WaveformFilter.add_sample WaveformFilter.finish_bin
    FilteredWaveformBinAccumulator.add_sample
  simp [h, default_filteredAcc]

/-- A non-flushing add_sample call: nothing is emitted, the sample is fed and
the pending count is incremented. -/
lemma add_sample_no_flush (w : WaveformFilter) (x : ℝ)
    (h : ¬ w.samples_per_bin ≤ w.pending_samples_count) :
    w.add_sample x
      = ⟨{ w with
            filtered_accumulator := (w.filtered_accumulator.add_sample w.filter_bank x).1,
            filter_bank := (w.filtered_accumulator.add_sample w.filter_bank x).2,
            pending_samples_count := w.pending_samples_count + 1 }, none⟩ := by
  unfold WaveformFilter.add_sample
  rw [if_neg h]

/-- Over a stretch of calls none of which emits a bin, and none of which
silently flushes an empty accumulator, the filter just feeds every sample to
the accumulator and bank and counts the samples. -/
lemma processStream_no_flush (w : WaveformFilter) (l : List ℝ)
    (hguard : w.filtered_accumulator.sample_count = 0 →
      w.pending_samples_count < w.samples_per_bin)
    (hnone : ∀ o ∈ (w.processStream l).2, o = none) :
    (w.processStream l).1.filtered_accumulator
        = (w.filtered_accumulator.feed w.filter_bank l).1 ∧
    (w.processStream l).1.filter_bank = (w.filtered_accumulator.feed w.filter_bank l).2 ∧
    (w.processStream l).1.pending_samples_count
        = w.pending_samples_count + l.length := by
  induction l generalizing w with
  | nil =>
      refine ⟨rfl, rfl, ?_⟩
      show w.pending_samples_count = w.pending_samples_count + (0 : ℕ)
      simp
  | cons x xs ih =>
      have hx : ¬ w.samples_per_bin ≤ w.pending_samples_count := by
        by_cases hc : w.filtered_accumulator.sample_count = 0
        · exact not_le.mpr (hguard hc)
        · intro hle
          have hhead : (w.add_sample x).2 = none := by
            refine hnone (w.add_sample x).2 ?_
            show (w.add_sample x).2 ∈ (w.processStream (x :: xs)).2
            rw [show (w.processStream (x :: xs)).2
                = (w.add_sample x).2 :: ((w.add_sample x).1.processStream xs).2 from rfl]
            exact List.mem_cons_self _ _
          rw [(add_sample_flush w x hle).1] at hhead
          have := (filteredAcc_finish_isSome w.filtered_accumulator).mpr hc
          rw [hhead] at this
          simp at this
      have hstep := add_sample_no_flush w x hx
      have htail : ∀ o ∈ ((w.add_sample x).1.processStream xs).2, o = none := by
        intro o ho
        refine hnone o ?_
        show o ∈ (w.processStream (x :: xs)).2
        rw [show (w.processStream (x :: xs)).2
            = (w.add_sample x).2 :: ((w.add_sample x).1.processStream xs).2 from rfl]
        exact List.mem_cons_of_mem _ ho
      have hguard2 : (w.add_sample x).1.filtered_accumulator.sample_count = 0 →
          (w.add_sample x).1.pending_samples_count < (w.add_sample x).1.samples_per_bin := by
        intro hc
        exfalso
        rw [hstep] at hc
        have : (w.filtered_accumulator.add_sample w.filter_bank x).1.sample_count
            = w.filtered_accumulator.sample_count + 1 := rfl
        rw [this] at hc
        exact Nat.succ_ne_zero _ hc
      obtain ⟨ih1, ih2, ih3⟩ := ih (w.add_sample x).1 hguard2 htail
      have hfeed : w.filtered_accumulator.feed w.filter_bank (x :: xs)
          = (w.filtered_accumulator.add_sample w.filter_bank x).1.feed
              (w.filtered_accumulator.add_sample w.filter_bank x).2 xs := rfl
      have hps : w.processStream (x :: xs)
          = ⟨((w.add_sample x).1.processStream xs).1,
             (w.add_sample x).2 :: ((w.add_sample x).1.processStream xs).2⟩ := rfl
      rw [hps, hfeed]
      refine ⟨?_, ?_, ?_⟩
      · rw [show ((((w.add_sample x).1.processStream xs).1,
            (w.add_sample x).2 :: ((w.add_sample x).1.processStream xs).2)).1
            = ((w.add_sample x).1.processStream xs).1 from rfl]
        rw [ih1, hstep]
      · rw [show ((((w.add_sample x).1.processStream xs).1,
            (w.add_sample x).2 :: ((w.add_sample x).1.processStream xs).2)).1
            = ((w.add_sample x).1.processStream xs).1 from rfl]
        rw [ih2, hstep]
      · rw [show ((((w.add_sample x).1.processStream xs).1,
            (w.add_sample x).2 :: ((w.add_sample x).1.processStream xs).2)).1
            = ((w.add_sample x).1.processStream xs).1 from rfl]
        rw [ih3, hstep]
        show w.pending_samples_count + 1 + (xs.length : ℚ)
            = w.pending_samples_count + ((xs.length + 1 : ℕ) : ℚ)
        push_cast
        ring

/-! ## A silent stream leaves every delay register and accumulator at zero -/

lemma biquad_run_zero (f : Biquad) (h : f.ZeroState) :
    (f.run 0).1.ZeroState ∧ (f.run 0).2 = 0 := by
  obtain ⟨h1, h2⟩ := h
  show (f.coeffs.b1 * 0 - f.coeffs.a1 * (f.coeffs.b0 * 0 + f.s1) + f.s2 = 0 ∧
        f.coeffs.b2 * 0 - f.coeffs.a2 * (f.coeffs.b0 * 0 + f.s1) = 0) ∧
      f.coeffs.b0 * 0 + f.s1 = 0
  rw [h1, h2]
  norm_num

lemma cascade_run_zero (p : Biquad × Biquad) (h1 : p.1.ZeroState) (h2 : p.2.ZeroState) :
    ((Biquad.runCascade p 0).1.1.ZeroState ∧ (Biquad.runCascade p 0).1.2.ZeroState) ∧
    (Biquad.runCascade p 0).2 = 0 := by
  have b1 := biquad_run_zero p.1 h1
  show ((p.1.run 0).1.ZeroState ∧ (p.2.run (p.1.run 0).2).1.ZeroState) ∧
      (p.2.run (p.1.run 0).2).2 = 0
  rw [b1.2]
  have b2 := biquad_run_zero p.2 h2
  exact ⟨⟨b1.1, b2.1⟩, b2.2⟩

lemma bank_run_zero (b : ThreeBandFilterBank) (h : b.ZeroState) :
    (b.run 0).1.ZeroState ∧ (b.run 0).2.all = 0 ∧ (b.run 0).2.low = 0 ∧
    (b.run 0).2.mid = 0 ∧ (b.run 0).2.high = 0 := by
  obtain ⟨h1, h2, h3, h4, h5, h6⟩ := h
  have c1 := cascade_run_zero b.low_lp h1 h2
  have c2 := cascade_run_zero b.mid_bp h3 h4
  have c3 := cascade_run_zero b.high_hp h5 h6
  exact ⟨⟨c1.1.1, c1.1.2, c2.1.1, c2.1.2, c3.1.1, c3.1.2⟩, rfl, c1.2, c2.2, c3.2⟩

lemma acc_add_zero : (⟨0, 0⟩ : WaveformBinAccumulator).add_sample 0 = ⟨0, 0⟩ := by
  unfold WaveformBinAccumulator.add_sample
  norm_num

lemma zeroBands_default : (default : FilteredWaveformBinAccumulator).ZeroBands :=
  ⟨rfl, rfl, rfl, rfl⟩

lemma facc_add_zero (A : FilteredWaveformBinAccumulator) (bank : ThreeBandFilterBank)
    (hA : A.ZeroBands) (hb : bank.ZeroState) :
    (A.add_sample bank 0).1.ZeroBands ∧ (A.add_sample bank 0).2.ZeroState := by
  obtain ⟨hbz, hall, hlow, hmid, hhigh⟩ := bank_run_zero bank hb
  obtain ⟨h1, h2, h3, h4⟩ := hA
  constructor
  · refine ⟨?_, ?_, ?_, ?_⟩
    · show A.all.add_sample (bank.run 0).2.all = ⟨0, 0⟩
      rw [h1, hall, acc_add_zero]
    · show A.low.add_sample (bank.run 0).2.low = ⟨0, 0⟩
      rw [h2, hlow, acc_add_zero]
    · show A.mid.add_sample (bank.run 0).2.mid = ⟨0, 0⟩
      rw [h3, hmid, acc_add_zero]
    · show A.high.add_sample (bank.run 0).2.high = ⟨0, 0⟩
      rw [h4, hhigh, acc_add_zero]
  · exact hbz

lemma fromF32Real_zero : WaveformVal.fromF32Real 0 = ⟨0⟩ := by
  unfold WaveformVal.fromF32Real
  norm_num

lemma waveformBinAcc_finish_zero (c : ℝ) :
    WaveformBinAccumulator.finish ⟨0, 0⟩ c = ⟨⟨0⟩, ⟨0⟩⟩ := by
  unfold WaveformBinAccumulator.finish
  have h1 : (0 : ℝ) / c = 0 := zero_div c
  show (⟨WaveformVal.fromF32Real 0,
    WaveformVal.fromF32Real (min (Real.sqrt (0 / c) * Real.sqrt 2) 1)⟩ : FilterRs.WaveformBin) = _
  rw [h1, Real.sqrt_zero, zero_mul, min_eq_left zero_le_one, fromF32Real_zero]

lemma facc_finish_zero (A : FilteredWaveformBinAccumulator) (hA : A.ZeroBands) :
    A.finish = none ∨ A.finish = some zeroFilteredWaveformBin := by
  unfold FilteredWaveformBinAccumulator.finish
  by_cases h : A.sample_count = 0
  · left
    rw [if_pos h]
  · right
    rw [if_neg h]
    obtain ⟨h1, h2, h3, h4⟩ := hA
    rw [h1, h2, h3, h4, waveformBinAcc_finish_zero]
    rfl

lemma add_sample_zero (w : WaveformFilter)
    (hb : w.filter_bank.ZeroState) (hA : w.filtered_accumulator.ZeroBands) :
    (w.add_sample 0).1.filter_bank.ZeroState ∧
    (w.add_sample 0).1.filtered_accumulator.ZeroBands ∧
    ((w.add_sample 0).2 = none ∨ (w.add_sample 0).2 = some zeroFilteredWaveformBin) := by
  by_cases hf : w.samples_per_bin ≤ w.pending_samples_count
  · have hstep : w.add_sample 0 = ⟨{ w with
        filtered_accumulator :=
          ((default : FilteredWaveformBinAccumulator).add_sample w.filter_bank 0).1,
        filter_bank :=
          ((default : FilteredWaveformBinAccumulator).add_sample w.filter_bank 0).2,
        pending_samples_count := w.pending_samples_count - w.samples_per_bin + 1 },
        w.filtered_accumulator.finish⟩ := by
      unfold WaveformFilter.add_sample WaveformFilter.finish_bin
      rw [if_pos hf]
    rw [hstep]
    have hz := facc_add_zero default w.filter_bank zeroBands_default hb
    exact ⟨hz.2, hz.1, facc_finish_zero w.filtered_accumulator hA⟩
  · rw [add_sample_no_flush w 0 hf]
    have hz := facc_add_zero w.filtered_accumulator w.filter_bank hA hb
    exact ⟨hz.2, hz.1, Or.inl rfl⟩

lemma processStream_zero (w : WaveformFilter) (n : ℕ)
    (hb : w.filter_bank.ZeroState) (hA : w.filtered_accumulator.ZeroBands) :
    (w.processStream (List.replicate n 0)).1.filter_bank.ZeroState ∧
    (w.processStream (List.replicate n 0)).1.filtered_accumulator.ZeroBands ∧
    ∀ o ∈ (w.processStream (List.replicate n 0)).2,
      o = none ∨ o = some zeroFilteredWaveformBin := by
  induction n generalizing w with
  | zero =>
      refine ⟨hb, hA, ?_⟩
      intro o ho
      simp [WaveformFilter.processStream] at ho
  | succ n ih =>
      obtain ⟨s1, s2, s3⟩ := add_sample_zero w hb hA
      obtain ⟨i1, i2, i3⟩ := ih (w.add_sample 0).1 s1 s2
      have hps : w.processStream (List.replicate (n + 1) 0)
          = ⟨((w.add_sample 0).1.processStream (List.replicate n 0)).1,
             (w.add_sample 0).2
               :: ((w.add_sample 0).1.processStream (List.replicate n 0)).2⟩ := rfl
      rw [hps]
      refine ⟨i1, i2, ?_⟩
      intro o ho
      rcases List.mem_cons.mp ho with h | h
      · rw [h]
        exact s3
      · exact i3 o h

lemma bank_new_zero (cl ch hl hh : Coefficients) :
    (ThreeBandFilterBank.new cl ch hl hh).ZeroState :=
  ⟨⟨rfl, rfl⟩, ⟨rfl, rfl⟩, ⟨rfl, rfl⟩, ⟨rfl, rfl⟩, ⟨rfl, rfl⟩, ⟨rfl, rfl⟩⟩

/-! ## Spectral flatness of a uniform bin -/

lemma spectral_flatness_uniform (v : WaveformVal) :
    (FilteredWaveformBin.uniform v).spectral_flatness = 1 := by
  have ht0 : (0 : ℝ) ≤ ((WaveformVal.to_f32 v : ℚ) : ℝ) := by
    have : (0 : ℚ) ≤ WaveformVal.to_f32 v := by
      unfold WaveformVal.to_f32
      positivity
    exact_mod_cast this
  unfold FilteredWaveformBin.spectral_flatness
  dsimp only [FilteredWaveformBin.uniform, FilteredWaveformBin.ratio]
  set t : ℝ := ((WaveformVal.to_f32 v : ℚ) : ℝ) with hte
  set x : ℝ := (2 : ℝ) ^ t - 1 with hxe
  have hAM : (x + x + x) / 3 = x := by ring
  have hx0 : 0 ≤ x := by
    have h2 : (1 : ℝ) ≤ (2 : ℝ) ^ t := by
      calc (1 : ℝ) = (2 : ℝ) ^ (0 : ℝ) := (Real.rpow_zero 2).symm
        _ ≤ (2 : ℝ) ^ t := Real.rpow_le_rpow_of_exponent_le one_le_two ht0
    rw [hxe]
    linarith
  simp only [hAM]
  rcases eq_or_lt_of_le hx0 with h | h
  · rw [if_pos h.symm]
  · rw [if_neg (ne_of_gt h)]
    have hc : x * x * x = x ^ (3 : ℝ) := by
      rw [show (3 : ℝ) = ((3 : ℕ) : ℝ) by norm_num, Real.rpow_natCast]
      ring
    rw [hc, ← Real.rpow_mul (le_of_lt h)]
    have h3 : (3 : ℝ) * (1 / 3) = 1 := by norm_num
    rw [h3, Real.rpow_one, div_self (ne_of_gt h)]

/-! ## Concrete facts for samples_per_bin = 64 over 64 samples -/

lemma finish_eq (w : WaveformFilter) : w.finish = w.filtered_accumulator.finish :=
  rfl

lemma spb64 : (WaveformFilter.new 9600 150 bank0).samples_per_bin = 64 := by
  show max ((9600 : ℚ) / 150) (64 : ℚ) = 64
  norm_num

lemma countOf64 : (WaveformFilter.new 9600 150 bank0).countOf = ⟨0, 64, 0⟩ := by
  have h : (WaveformFilter.new 9600 150 bank0).countOf
      = ⟨0, (WaveformFilter.new 9600 150 bank0).samples_per_bin, 0⟩ := rfl
  rw [h, spb64]

lemma floor63 : ⌊((64 : ℚ) - 1) / 64⌋ = 0 := by
  rw [Int.floor_eq_zero_iff]
  constructor <;> norm_num

lemma countP64 : (countRun (⟨0, 64, 0⟩ : CountState) 64).2.countP Option.isSome = 0 := by
  have h := countRun_countP 64 (by norm_num) 64 (by norm_num)
  rw [show (((64 : ℕ) : ℚ) - 1) / (64 : ℚ) = ((64 : ℚ) - 1) / 64 by norm_num, floor63] at h
  exact_mod_cast h

lemma allNone64 : ∀ o ∈ (countRun (⟨0, 64, 0⟩ : CountState) 64).2, o = none := by
  intro o ho
  have h := List.countP_eq_zero.mp countP64 o ho
  exact Option.not_isSome_iff_eq_none.mp h

lemma pending64 : (countRun (⟨0, 64, 0⟩ : CountState) 64).1.pending = 64 := by
  have h := (countRun_inv 64 (by norm_num) 64).1
  rw [countP64] at h
  rw [h]
  norm_num

lemma countPos64 : 1 ≤ (countRun (⟨0, 64, 0⟩ : CountState) 64).1.count :=
  countRun_count_pos 64 (by norm_num) 64 (by norm_num)

/-! ## The claims -/

/-- Claim C3: for every 8-bit code c in 0..=255, encoding the decoded value
round-trips exactly: from_f32 (to_f32 c) = c. -/
theorem from_f32_to_f32_roundtrip (c : Fin 256) :
    WaveformVal.from_f32 (WaveformVal.to_f32 ⟨c.val⟩) = ⟨c.val⟩ := by
  unfold WaveformVal.from_f32 WaveformVal.to_f32
  have hcn : c.val ≤ 255 := Nat.lt_succ_iff.mp c.isLt
  by_cases h255 : c.val = 255
  · rw [h255]
    norm_num
    rfl
  · have hlt : c.val < 255 := lt_of_le_of_ne hcn h255
    have hq254 : ((c.val : ℚ)) ≤ 254 := by
      exact_mod_cast Nat.lt_succ_iff.mp hlt
    have hq0 : (0 : ℚ) ≤ (c.val : ℚ) := by positivity
    have hmin : min ((c.val : ℚ) / 255 * 256) 255 = (c.val : ℚ) / 255 * 256 := by
      apply min_eq_left
      rw [div_mul_eq_mul_div, div_le_iff₀ (by norm_num : (0 : ℚ) < 255)]
      linarith
    rw [hmin]
    have hfloor : ⌊(c.val : ℚ) / 255 * 256⌋ = (c.val : ℤ) := by
      rw [Int.floor_eq_iff]
      constructor
      · push_cast
        rw [div_mul_eq_mul_div, le_div_iff₀ (by norm_num : (0 : ℚ) < 255)]
        linarith
      · push_cast
        rw [div_mul_eq_mul_div, div_lt_iff₀ (by norm_num : (0 : ℚ) < 255)]
        have hq255 : ((c.val : ℚ)) < 255 := by exact_mod_cast hlt
        linarith
    rw [hfloor]
    simp

/-- Claim C4: a bin whose four bands all carry the same quantized value has
spectral flatness 1 within one millionth (in the exact real model it is
exactly 1), and the all-zero bin yields exactly 1 through the degenerate-mean
branch rather than a division of zero by zero. -/
theorem spectral_flatness_uniform_one (v : WaveformVal) :
    |(FilteredWaveformBin.uniform v).spectral_flatness - 1| ≤ 1 / 1000000 ∧
    (FilteredWaveformBin.uniform ⟨0⟩).spectral_flatness = 1 := by
  refine ⟨?_, spectral_flatness_uniform ⟨0⟩⟩
  rw [spectral_flatness_uniform v]
  norm_num

/-- Claim C6: a finished accumulator with sample count n > 0 stores, in every
band, the energy clamp(sqrt(rms_sum / n) * sqrt 2, 0, 1) quantized; the lower
clamp at 0 never bites because the square root is nonnegative, which makes
the clamp of the claim equal to the min of the code. -/
theorem finish_energy_rms_formula (A : FilteredWaveformBinAccumulator)
    (h : 0 < A.sample_count) :
    ∃ b : FilterRs.FilteredWaveformBin, A.finish = some b ∧
      b.all.energy = WaveformVal.fromF32Real
        (max 0 (min (Real.sqrt (A.all.rms_sum / (A.sample_count : ℝ)) * Real.sqrt 2) 1)) ∧
      b.low.energy = WaveformVal.fromF32Real
        (max 0 (min (Real.sqrt (A.low.rms_sum / (A.sample_count : ℝ)) * Real.sqrt 2) 1)) ∧
      b.mid.energy = WaveformVal.fromF32Real
        (max 0 (min (Real.sqrt (A.mid.rms_sum / (A.sample_count : ℝ)) * Real.sqrt 2) 1)) ∧
      b.high.energy = WaveformVal.fromF32Real
        (max 0 (min (Real.sqrt (A.high.rms_sum / (A.sample_count : ℝ)) * Real.sqrt 2) 1)) := by
  have hne : A.sample_count ≠ 0 := Nat.pos_iff_ne_zero.mp h
  have key : ∀ a : WaveformBinAccumulator,
      (a.finish (A.sample_count : ℝ)).energy
        = WaveformVal.fromF32Real
            (max 0 (min (Real.sqrt (a.rms_sum / (A.sample_count : ℝ)) * Real.sqrt 2) 1)) := by
    intro a
    show WaveformVal.fromF32Real (min (Real.sqrt (a.rms_sum / (A.sample_count : ℝ))
        * Real.sqrt 2) 1) = _
    congr 1
    rw [max_eq_right]
    exact le_min (by positivity) zero_le_one
  refine ⟨⟨A.all.finish (A.sample_count : ℝ), A.low.finish (A.sample_count : ℝ),
    A.mid.finish (A.sample_count : ℝ), A.high.finish (A.sample_count : ℝ)⟩, ?_,
    key A.all, key A.low, key A.mid, key A.high⟩
  unfold FilteredWaveformBinAccumulator.finish
  rw [if_neg hne]

/-- Witness for C6 at the one-sample silent accumulator. -/
theorem finish_energy_rms_formula_witness :
    ∃ b : FilterRs.FilteredWaveformBin,
      (⟨1, ⟨0, 0⟩, ⟨0, 0⟩, ⟨0, 0⟩, ⟨0, 0⟩⟩ : FilteredWaveformBinAccumulator).finish = some b ∧
      b.all.energy = WaveformVal.fromF32Real
        (max 0 (min (Real.sqrt ((0 : ℝ) / ((1 : ℕ) : ℝ)) * Real.sqrt 2) 1)) ∧
      b.low.energy = WaveformVal.fromF32Real
        (max 0 (min (Real.sqrt ((0 : ℝ) / ((1 : ℕ) : ℝ)) * Real.sqrt 2) 1)) ∧
      b.mid.energy = WaveformVal.fromF32Real
        (max 0 (min (Real.sqrt ((0 : ℝ) / ((1 : ℕ) : ℝ)) * Real.sqrt 2) 1)) ∧
      b.high.energy = WaveformVal.fromF32Real
        (max 0 (min (Real.sqrt ((0 : ℝ) / ((1 : ℕ) : ℝ)) * Real.sqrt 2) 1)) :=
  finish_energy_rms_formula ⟨1, ⟨0, 0⟩, ⟨0, 0⟩, ⟨0, 0⟩, ⟨0, 0⟩⟩ Nat.one_pos

/-- Claim C7: the saturated bin (low and all at the maximum code, mid and
high zero) maps to pure red, and the all-zero bin maps to pure black through
the zero-denominator branch. -/
theorem spectral_color_red_and_black :
    FilteredWaveformVal.spectral_rgb_color ⟨⟨255⟩, ⟨255⟩, ⟨0⟩, ⟨0⟩⟩ = (1, 0, 0) ∧
    FilteredWaveformVal.spectral_rgb_color ⟨⟨0⟩, ⟨0⟩, ⟨0⟩, ⟨0⟩⟩ = (0, 0, 0) := by
  constructor
  · unfold FilteredWaveformVal.spectral_rgb_color FilteredWaveformVal.spectral_rgb
      WaveformVal.to_f32
    norm_num
  · unfold FilteredWaveformVal.spectral_rgb_color FilteredWaveformVal.spectral_rgb
      WaveformVal.to_f32
    norm_num

/-- Claim C8: the explicit finish drains the accumulator (it returns exactly
the accumulator finish), and it returns None precisely when the accumulator
sample count is zero. -/
theorem finish_none_iff_empty (w : WaveformFilter) :
    w.finish = w.filtered_accumulator.finish ∧
    (w.finish = none ↔ w.filtered_accumulator.sample_count = 0) := by
  refine ⟨rfl, ?_⟩
  rw [finish_eq]
  unfold FilteredWaveformBinAccumulator.finish
  by_cases h : w.filtered_accumulator.sample_count = 0
  · simp [h]
  · simp [h]

/-- Claim C10: every channel of the spectral color lies in the unit interval:
the denominator is the maximum of the four band values, so each quotient is
at most 1, and the zero-denominator branch returns black. -/
theorem spectral_rgb_color_unit_range (f : FilteredWaveformVal) :
    0 ≤ f.spectral_rgb_color.1 ∧ f.spectral_rgb_color.1 ≤ 1 ∧
    0 ≤ f.spectral_rgb_color.2.1 ∧ f.spectral_rgb_color.2.1 ≤ 1 ∧
    0 ≤ f.spectral_rgb_color.2.2 ∧ f.spectral_rgb_color.2.2 ≤ 1 := by
  have h0 : ∀ v : WaveformVal, 0 ≤ v.to_f32 := by
    intro v
    unfold WaveformVal.to_f32
    positivity
  unfold FilteredWaveformVal.spectral_rgb_color FilteredWaveformVal.spectral_rgb
  set denom := max (max (max f.all.to_f32 f.low.to_f32) f.mid.to_f32) f.high.to_f32 with hd
  by_cases hz : denom = 0
  · rw [if_pos hz]
    norm_num
  · rw [if_neg hz]
    have hlow : f.low.to_f32 ≤ denom :=
      le_trans (le_trans (le_max_right _ _) (le_max_left _ _)) (le_max_left _ _)
    have hmid : f.mid.to_f32 ≤ denom := le_trans (le_max_right _ _) (le_max_left _ _)
    have hhigh : f.high.to_f32 ≤ denom := le_max_right _ _
    have hd0 : 0 ≤ denom := le_trans (h0 f.high) hhigh
    exact ⟨div_nonneg (h0 _) hd0, div_le_one_of_le₀ hlow hd0,
      div_nonneg (h0 _) hd0, div_le_one_of_le₀ hmid hd0,
      div_nonneg (h0 _) hd0, div_le_one_of_le₀ hhigh hd0⟩

/-- Claim C1 (amended): over a nonempty stream of N samples the add_sample
calls emit exactly floor((N - 1) / S) completed bins, not floor(N / S) (the
two differ exactly when S divides N); the explicit final finish emits one
additional bin for every nonempty stream, not only when N mod S is nonzero;
the emissions follow the counting skeleton, each skeleton emission is the
sample count underlying the bin flushed by that call, and those counts plus
the final drained count sum to N. -/
theorem stream_bin_and_count_totals (sample_rate_hz bins_per_sec : ℚ)
    (bank : ThreeBandFilterBank) (l : List ℝ) (hl : l ≠ []) :
    ((WaveformFilter.new sample_rate_hz bins_per_sec bank).processStream l).2.map Option.isSome
        = (countRun ⟨0, (WaveformFilter.new sample_rate_hz bins_per_sec bank).samples_per_bin, 0⟩
            l.length).2.map Option.isSome ∧
    ((((WaveformFilter.new sample_rate_hz bins_per_sec bank).processStream l).2.countP
        Option.isSome : ℕ) : ℤ)
        = ⌊((l.length : ℚ) - 1)
            / (WaveformFilter.new sample_rate_hz bins_per_sec bank).samples_per_bin⌋ ∧
    ((WaveformFilter.new sample_rate_hz bins_per_sec bank).processStream l).1.finish.isSome
        = true ∧
    (∀ (w : WaveformFilter) (y : ℝ),
        (countStep w.countOf).2
          = (w.add_sample y).2.map (fun _ => w.filtered_accumulator.sample_count)) ∧
    ((countRun ⟨0, (WaveformFilter.new sample_rate_hz bins_per_sec bank).samples_per_bin, 0⟩
        l.length).2.filterMap id).sum
      + ((WaveformFilter.new sample_rate_hz bins_per_sec
          bank).processStream l).1.filtered_accumulator.sample_count
        = l.length := by
  set w0 := WaveformFilter.new sample_rate_hz bins_per_sec bank with hw0
  have hS : 1 ≤ w0.samples_per_bin :=
    le_trans (by norm_num) (new_samples_per_bin sample_rate_hz bins_per_sec bank)
  have hco : w0.countOf = ⟨0, w0.samples_per_bin, 0⟩ := rfl
  have hn : 1 ≤ l.length := List.length_pos.mpr hl
  refine ⟨?_, ?_, ?_, ?_, ?_⟩
  · have h := (countOf_processStream w0 l).2
    rw [hco] at h
    exact h
  · rw [processStream_countP w0 l, hco]
    exact countRun_countP _ hS _ hn
  · have hc := processStream_count w0 l
    rw [hco] at hc
    have h1 := countRun_count_pos _ hS _ hn
    rw [finish_eq, filteredAcc_finish_isSome]
    omega
  · intro w y
    exact (countOf_add_sample w y).2.2
  · have hc := processStream_count w0 l
    rw [hco] at hc
    have hsum := countRun_sum _ hS l.length
    rw [hc]
    exact hsum

/-- Witness for C1 (amended) on the one-sample stream. -/
theorem stream_bin_and_count_totals_witness :
    ((WaveformFilter.new 9600 150 bank0).processStream [(0 : ℝ)]).2.map Option.isSome
        = (countRun ⟨0, (WaveformFilter.new 9600 150 bank0).samples_per_bin, 0⟩
            [(0 : ℝ)].length).2.map Option.isSome ∧
    ((((WaveformFilter.new 9600 150 bank0).processStream [(0 : ℝ)]).2.countP
        Option.isSome : ℕ) : ℤ)
        = ⌊(([(0 : ℝ)].length : ℚ) - 1)
            / (WaveformFilter.new 9600 150 bank0).samples_per_bin⌋ ∧
    ((WaveformFilter.new 9600 150 bank0).processStream [(0 : ℝ)]).1.finish.isSome = true ∧
    (∀ (w : WaveformFilter) (y : ℝ),
        (countStep w.countOf).2
          = (w.add_sample y).2.map (fun _ => w.filtered_accumulator.sample_count)) ∧
    ((countRun ⟨0, (WaveformFilter.new 9600 150 bank0).samples_per_bin, 0⟩
        [(0 : ℝ)].length).2.filterMap id).sum
      + ((WaveformFilter.new 9600 150
          bank0).processStream [(0 : ℝ)]).1.filtered_accumulator.sample_count
        = [(0 : ℝ)].length :=
  stream_bin_and_count_totals 9600 150 bank0 [(0 : ℝ)] (by simp)

/-- Claim C1 counterexample: with samples_per_bin = 64 and a stream of N = 64
samples (so S divides N and floor(N / S) = 1, N mod S = 0), the add_sample
calls emit 0 completed bins, not 1, and the explicit final finish does emit a
bin although N mod S = 0. -/
theorem stream_bin_count_cex :
    (WaveformFilter.new 9600 150 bank0).samples_per_bin = 64 ∧
    ((WaveformFilter.new 9600 150 bank0).processStream
        (List.replicate 64 (0 : ℝ))).2.countP Option.isSome = 0 ∧
    ((WaveformFilter.new 9600 150 bank0).processStream
        (List.replicate 64 (0 : ℝ))).1.finish.isSome = true := by
  refine ⟨spb64, ?_, ?_⟩
  · rw [processStream_countP, countOf64, List.length_replicate]
    exact countP64
  · rw [finish_eq, filteredAcc_finish_isSome, processStream_count, countOf64,
      List.length_replicate]
    have := countPos64
    omega

/-- Claim C2: when the pre-increment pending count has reached the bin size,
the triggering add_sample call emits exactly the bin accumulated from the
samples fed since the previous flush - never including the sample passed to
the triggering call, which instead becomes the single sample of the next
accumulator - and the residual pending - samples_per_bin (plus the one new
sample) is carried over. -/
theorem flush_then_feed (w0 : WaveformFilter) (seg : List ℝ) (x : ℝ)
    (hacc : w0.filtered_accumulator = default)
    (hp0 : w0.pending_samples_count < w0.samples_per_bin)
    (hnone : ∀ o ∈ (w0.processStream seg).2, o = none)
    (htrig : (w0.processStream seg).1.samples_per_bin
        ≤ (w0.processStream seg).1.pending_samples_count) :
    ((w0.processStream seg).1.add_sample x).2
        = ((default : FilteredWaveformBinAccumulator).feed w0.filter_bank seg).1.finish ∧
    ((w0.processStream seg).1.add_sample x).1.pending_samples_count
        = (w0.processStream seg).1.pending_samples_count
            - (w0.processStream seg).1.samples_per_bin + 1 ∧
    ((w0.processStream seg).1.add_sample x).1.filtered_accumulator.sample_count = 1 := by
  have hguard : w0.filtered_accumulator.sample_count = 0 →
      w0.pending_samples_count < w0.samples_per_bin := fun _ => hp0
  obtain ⟨hfa, _, _⟩ := processStream_no_flush w0 seg hguard hnone
  obtain ⟨f1, f2, f3⟩ := add_sample_flush (w0.processStream seg).1 x htrig
  refine ⟨?_, f2, f3⟩
  rw [f1, hfa, hacc]

/-- Witness for C2: 64 silent samples fill exactly one bin; the 65th call
flushes it and starts the next bin with the triggering sample. -/
theorem flush_then_feed_witness :
    (((WaveformFilter.new 9600 150 bank0).processStream
        (List.replicate 64 (0 : ℝ))).1.add_sample 1).2
        = ((default : FilteredWaveformBinAccumulator).feed
            (WaveformFilter.new 9600 150 bank0).filter_bank
            (List.replicate 64 (0 : ℝ))).1.finish ∧
    (((WaveformFilter.new 9600 150 bank0).processStream
        (List.replicate 64 (0 : ℝ))).1.add_sample 1).1.pending_samples_count
        = ((WaveformFilter.new 9600 150 bank0).processStream
            (List.replicate 64 (0 : ℝ))).1.pending_samples_count
          - ((WaveformFilter.new 9600 150 bank0).processStream
              (List.replicate 64 (0 : ℝ))).1.samples_per_bin + 1 ∧
    (((WaveformFilter.new 9600 150 bank0).processStream
        (List.replicate 64 (0 : ℝ))).1.add_sample
          1).1.filtered_accumulator.sample_count = 1 := by
  have hp0 : (WaveformFilter.new 9600 150 bank0).pending_samples_count
      < (WaveformFilter.new 9600 150 bank0).samples_per_bin := by
    rw [spb64]
    show (0 : ℚ) < 64
    norm_num
  have hnone : ∀ o ∈ ((WaveformFilter.new 9600 150 bank0).processStream
      (List.replicate 64 (0 : ℝ))).2, o = none := by
    apply processStream_all_none
    rw [countOf64, List.length_replicate]
    exact allNone64
  have htrig : ((WaveformFilter.new 9600 150 bank0).processStream
      (List.replicate 64 (0 : ℝ))).1.samples_per_bin
      ≤ ((WaveformFilter.new 9600 150 bank0).processStream
          (List.replicate 64 (0 : ℝ))).1.pending_samples_count := by
    rw [processStream_spb, processStream_pending, countOf64, List.length_replicate,
      pending64, spb64]
  exact flush_then_feed (WaveformFilter.new 9600 150 bank0)
    (List.replicate 64 (0 : ℝ)) 1 rfl hp0 hnone htrig

/-- Claim C5: a constant-zero stream of any length, from a freshly built
filter, produces only bins (via add_sample and via the final finish) in which
every band quantizes peak and energy to code 0. -/
theorem zero_stream_bins_quantize_zero (cl ch hl hh : Coefficients)
    (sample_rate_hz bins_per_sec : ℚ) (n : ℕ) :
    ((((WaveformFilter.new sample_rate_hz bins_per_sec
          (ThreeBandFilterBank.new cl ch hl hh)).processStream
            (List.replicate n 0)).2.filterMap id)
      ++ (((WaveformFilter.new sample_rate_hz bins_per_sec
          (ThreeBandFilterBank.new cl ch hl hh)).processStream
            (List.replicate n 0)).1.finish).toList).all
      (fun b => decide (b = zeroFilteredWaveformBin)) = true := by
  obtain ⟨hb, hA, hout⟩ := processStream_zero
    (WaveformFilter.new sample_rate_hz bins_per_sec (ThreeBandFilterBank.new cl ch hl hh)) n
    (bank_new_zero cl ch hl hh) zeroBands_default
  rw [List.all_eq_true]
  intro b hbmem
  rw [decide_eq_true_eq]
  rcases List.mem_append.mp hbmem with h | h
  · rcases List.mem_filterMap.mp h with ⟨o, ho, hoe⟩
    rcases hout o ho with rfl | rfl
    · exact absurd hoe (by simp)
    · exact (Option.some_inj.mp hoe).symm
  · rw [finish_eq] at h
    rcases facc_finish_zero _ hA with hfin | hfin
    · rw [hfin] at h
      exact absurd h (by simp)
    · rw [hfin] at h
      simpa using h

/-- Claim C9: whenever a reachable filter state satisfies the bin boundary
condition (pending count at least samples_per_bin at entry), the flush of the
next add_sample call yields Some bin, never None: the accumulator count is
strictly positive at every boundary crossing because samples_per_bin is at
least 64 > 1 and every call feeds its sample after any flush. -/
theorem boundary_flush_always_some (sample_rate_hz bins_per_sec : ℚ)
    (bank : ThreeBandFilterBank) (l : List ℝ) (x : ℝ)
    (h : ((WaveformFilter.new sample_rate_hz bins_per_sec
          bank).processStream l).1.samples_per_bin
        ≤ ((WaveformFilter.new sample_rate_hz bins_per_sec
            bank).processStream l).1.pending_samples_count) :
    (((WaveformFilter.new sample_rate_hz bins_per_sec
        bank).processStream l).1.add_sample x).2.isSome = true := by
  set w0 := WaveformFilter.new sample_rate_hz bins_per_sec bank with hw0
  have hS : 1 ≤ w0.samples_per_bin :=
    le_trans (by norm_num) (new_samples_per_bin sample_rate_hz bins_per_sec bank)
  have hco : w0.countOf = ⟨0, w0.samples_per_bin, 0⟩ := rfl
  by_cases hl : l = []
  · exfalso
    subst hl
    have h0 : (w0.processStream []).1 = w0 := rfl
    rw [h0] at h
    have hp : w0.pending_samples_count = 0 := rfl
    rw [hp] at h
    linarith
  · have hn : 1 ≤ l.length := List.length_pos.mpr hl
    have hc := processStream_count w0 l
    rw [hco] at hc
    have h1 := countRun_count_pos _ hS _ hn
    rw [(add_sample_flush (w0.processStream l).1 x h).1, filteredAcc_finish_isSome]
    omega

/-- Witness for C9: after 64 silent samples with samples_per_bin = 64 the
boundary condition holds, and the 65th call indeed emits a bin. -/
theorem boundary_flush_always_some_witness :
    (((WaveformFilter.new 9600 150 bank0).processStream
        (List.replicate 64 (0 : ℝ))).1.add_sample 0).2.isSome = true := by
  apply boundary_flush_always_some
  rw [processStream_spb, processStream_pending, countOf64, List.length_replicate,
    pending64, spb64]

end AudioViz
